import Mathlib

/-!
Verification of the pyfda fixed-point quantization subsystem.

Shallow embedding of:
* `pyfda/fixpoint_widgets/fixpoint_helpers.py` — class `UI_W`
  (`_construct_UI`, `ui2dict`, `dict2ui`, `quant_coeffs`);
* `pyfda/fixpoint_widgets/iir_df1/iir_df1_pyfixp_ui.py` — class
  `IIR_DF1_pyfixp_UI` (`update_accu_settings`);
* the quantizer `fx.Fixed` from `pyfda.libs.pyfda_fix_lib` and the input
  sanitizer `safe_eval` from `pyfda.libs.pyfda_lib`, which are not part of
  the five source files; these two are modelled from the specification
  (see the doc comments on `quantize` and `safe_eval_poszero`).

Python floats are modelled as exact rationals (ℚ) and Python ints as ℤ/ℕ.
String-tagged modes ("full"/"auto"/"man") are kept as `String` exactly as
the source compares them.
-/

namespace Pyfda

/-- A word-format entry of a quantization dict: the keys `WI` (integer
bits), `WF` (fractional bits) and `W` (total width) as stored in
`fb.fil[0]['fxqc'][...]` and as the attributes `self.WI`, `self.WF`,
`self.W` of `UI_W`.  (The purely cosmetic display string under the key
`Q`, written as `"WI.WF"` by `update_accu_settings`, is not modelled; nor
are the `ovfl`/`quant` keys, which no claim under consideration reads.) -/
structure WFmt where
  WI : ℤ
  WF : ℤ
  W  : ℤ
deriving DecidableEq, Repr

/-- The intended invariant of a stored word format: the total width is one
sign bit plus integer plus fractional bits. -/
def WFmt.inv (f : WFmt) : Prop := f.W = f.WI + f.WF + 1

/-- Modelled from the spec: `safe_eval(entry, fallback, return_type="int",
sign='poszero')` from `pyfda.libs.pyfda_lib` is not under `src/`.  Per the
spec (§6), numeric fields are always sanitized to non-negative integers
before being accepted; invalid or negative entries are clamped/rejected at
the boundary.  `entry = none` models text that does not evaluate to an
integer; a rejected entry falls back to the previous value. -/
def safe_eval_poszero (entry : Option ℤ) (fallback : ℤ) : ℤ :=
  match entry with
  | none => fallback
  | some v => if v < 0 then fallback else v

/-- `UI_W.ui2dict` (fixpoint_helpers.py, lines 232-248): read the `WI` and
`WF` line-edit fields through `safe_eval(..., sign='poszero')`, then
recompute `W = WI + WF + 1`; the same triple is written to `self.q_dict`.
`ledWI`/`ledWF` are the integer parses of the two text fields
(`none` = text that does not evaluate to an integer), `s` is the prior
widget state used as the `safe_eval` fallback. -/
def ui2dict (ledWI ledWF : Option ℤ) (s : WFmt) : WFmt :=
  let wi := safe_eval_poszero ledWI s.WI
  let wf := safe_eval_poszero ledWF s.WF
  { WI := wi, WF := wf, W := wi + wf + 1 }

/-- `UI_W.dict2ui` (fixpoint_helpers.py, lines 261-281): for each of the
keys `WI`, `WF` present in the passed dict, sanitize its value through
`safe_eval(..., sign='poszero')` (missing key: keep the old attribute),
then recompute `W = WF + WI + 1`.  `qWI`/`qWF` are the dict entries
(`none` = key absent). -/
def dict2ui (qWI qWF : Option ℤ) (s : WFmt) : WFmt :=
  let wi := match qWI with
            | none => s.WI
            | some v => safe_eval_poszero (some v) s.WI
  let wf := match qWF with
            | none => s.WF
            | some v => safe_eval_poszero (some v) s.WF
  { WI := wi, WF := wf, W := wf + wi + 1 }

/-- `UI_W._construct_UI` (fixpoint_helpers.py, lines 99-107): if the
`fractional` option is disabled the settings value for `WF` is overwritten
with 0; then `self.WI`, `self.WF` are taken from the settings dict and
`self.W = int(self.WI + self.WF + 1)`. -/
def construct_W (settingsWI settingsWF : ℤ) (fractional : Bool) : WFmt :=
  let wf := if fractional then settingsWF else 0
  { WI := settingsWI, WF := wf, W := settingsWI + wf + 1 }

/-- `np.sum(np.abs(l))` over a coefficient list. -/
def sumAbs (l : List ℚ) : ℚ := (l.map (fun x => |x|)).sum

/-- `int(np.ceil(np.log2 x))` for `x > 0`, in exact arithmetic: the least
`n : ℤ` with `x ≤ 2 ^ n` (see `ceilLog2_is_least` below).  For `x ≥ 1`
this is `Nat.clog 2 ⌈x⌉`; for `0 < x < 1` it is `-(Nat.log 2 ⌊x⁻¹⌋)`
(note `int()` truncates toward zero, so negative growth values pass
through unchanged). -/
def ceilLog2 (x : ℚ) : ℤ :=
  if 1 ≤ x then (Nat.clog 2 (Int.toNat ⌈x⌉) : ℤ)
  else -(Nat.log 2 (Int.toNat ⌊x⁻¹⌋) : ℤ)

/-- `int(np.ceil(np.log2 x))` with numpy semantics at the domain boundary:
for `x ≤ 0`, `np.log2` yields `-inf` (or `nan`), and `int()` of that
raises `OverflowError`/`ValueError` — modelled as `none`. -/
def npCeilLog2 (x : ℚ) : Option ℤ :=
  if x ≤ 0 then none else some (ceilLog2 x)

/-- The slice of the central dict `fb.fil[0]` read and written by
`IIR_DF1_pyfixp_UI.update_accu_settings`:
`fxqc['QI']`, `fxqc['QCB']`, `fxqc['QCA']`, `fxqc['QA']` word formats, the
quantized coefficient lists `fxqc['b']`, `fxqc['a']`, and the raw
(floating-point) coefficient arrays `ba[0]`, `ba[1]`. -/
structure FxqcState where
  QI  : WFmt
  QCB : WFmt
  QCA : WFmt
  QA  : WFmt
  b   : List ℚ
  a   : List ℚ
  ba0 : List ℚ
  ba1 : List ℚ
deriving DecidableEq, Repr

/-- `IIR_DF1_pyfixp_UI.update_accu_settings` (iir_df1_pyfixp_ui.py, lines
182-219).  `cmbW` is the accumulator mode combo-box text.  Inside the
`try` block, `"full"` computes `A_coeff = int(np.ceil(np.log2(len(
fxqc['b']))))` and `"auto"` computes `A_coeff = int(np.ceil(np.log2(
np.sum(np.abs(ba[0])))))`; on an exception the error is logged and the
method returns with the state untouched (first component `true` = error
logged).  Otherwise, for `"full"`/`"auto"` the accumulator `WF`/`WI` are
derived from `QI` and `QCB` plus the growth, and in every non-error case
`QA['W'] = QA['WI'] + QA['WF'] + 1` is recomputed.  The trailing
`QA.update(self.wdg_q_accu.q_dict)` copies the accumulator dict onto
itself (`wdg_q_accu` was constructed with `fxqc['QA']` as its `q_dict`),
and `wdg_w_accu.dict2ui(QA)` only refreshes widget attributes (modelled by
`dict2ui`), so neither changes this state.

`accu_growth` is the body of the `try` block: the `A_coeff` bit-growth
computation, `none` when it raises (caught by the `except` clause); in
`"man"` mode the `try` body binds nothing and no exception occurs. -/
def accu_growth (cmbW : String) (st : FxqcState) : Option ℤ :=
  if cmbW = "full" then npCeilLog2 ((st.b.length : ℚ))
  else if cmbW = "auto" then npCeilLog2 (sumAbs st.ba0)
  else some 0

/-- The rest of `update_accu_settings`; see `accu_growth` above. -/
def update_accu_settings (cmbW : String) (st : FxqcState) : Bool × FxqcState :=
  match accu_growth cmbW st with
  | none => (true, st)
  | some A =>
    let qa1 :=
      if cmbW = "full" ∨ cmbW = "auto" then
        { st.QA with WF := st.QI.WF + st.QCB.WF,
                     WI := st.QI.WI + st.QCB.WI + A }
      else st.QA
    let qa2 := { qa1 with W := qa1.WI + qa1.WF + 1 }
    (false, { st with QA := qa2 })

/-- Rounding modes of the quantizer (spec §3/§4.1): `Round` = round half
away from zero, `Fix` = truncate toward zero, `Floor` = round toward
negative infinity. -/
inductive RoundMode
  | Round
  | Fix
  | Floor
deriving DecidableEq, Repr

/-- Overflow modes of the quantizer (spec §3/§4.1): `Wrap` = two's
complement wraparound, `Sat` = clamp to the range boundary. -/
inductive OvflMode
  | Wrap
  | Sat
deriving DecidableEq, Repr

/-- A quantizer configuration (spec §3 QuantizerConfig): word format plus
rounding and overflow modes. -/
structure QConfig where
  WI : ℕ
  WF : ℕ
  rnd : RoundMode
  ovfl : OvflMode
deriving DecidableEq, Repr

/-- Total width of a quantizer config: `W = WI + WF + 1` (one sign bit). -/
def QConfig.W (c : QConfig) : ℕ := c.WI + c.WF + 1

/-- Modelled from the spec: step 2 of the quantizer algorithm (§4.1) of
`fx.Fixed` from `pyfda.libs.pyfda_fix_lib`, which is not under `src/`.
Applies the rounding mode to a scaled value, producing an integer. -/
def roundTo : RoundMode → ℚ → ℤ
  | .Round, x => if 0 ≤ x then ⌊x + 1 / 2⌋ else ⌈x - 1 / 2⌉
  | .Fix,   x => if 0 ≤ x then ⌊x⌋ else ⌈x⌉
  | .Floor, x => ⌊x⌋

/-- Modelled from the spec: step 3 of the quantizer algorithm (§4.1).
Overflow handling against the signed range `[-2^(W-1), 2^(W-1) - 1]`:
`Wrap` reduces modulo `2^W` remapped into the signed range, `Sat` clamps
to the nearest boundary. -/
def ovflTo (m : OvflMode) (W : ℕ) (k : ℤ) : ℤ :=
  match m with
  | .Wrap => (k + 2 ^ (W - 1)) % 2 ^ W - 2 ^ (W - 1)
  | .Sat  => max (-(2 ^ (W - 1))) (min k (2 ^ (W - 1) - 1))

/-- Modelled from the spec: the raw scaled integer the quantizer may
retain for integer-domain consumers (§4.1 step 4, parenthetical): scale by
`2^WF` (step 1), round (step 2), handle overflow (step 3). -/
def quantizeInt (c : QConfig) (x : ℚ) : ℤ :=
  ovflTo c.ovfl c.W (roundTo c.rnd (x * 2 ^ c.WF))

/-- Modelled from the spec: `quantize(value, config)` (§4.1), i.e.
`fx.Fixed.fixp` of `pyfda.libs.pyfda_fix_lib` in exact arithmetic:
scale by `2^WF`, round, handle overflow, unscale by `2^-WF`. -/
def quantize (c : QConfig) (x : ℚ) : ℚ :=
  (quantizeInt c x : ℚ) / 2 ^ c.WF

/-- The quantization dict handed to `fx.Fixed` by `UI_W.quant_coeffs`:
the numeric format plus the display-format setting (`frmt`: one of
`"dec"`, `"bin"`, `"hex"`, ... elsewhere in the system). -/
structure CoeffQDict where
  cfg : QConfig
  frmt : String
deriving DecidableEq, Repr

/-- `UI_W.quant_coeffs` (fixpoint_helpers.py, lines 178-213).  Builds
`Q_coeff = fx.Fixed(q_dict)` and immediately forces `Q_coeff.frmt =
'dec'`, so the display-format setting of the passed dict is discarded and
decimal (fixed binary-point) semantics are always used.  When `coeffs is
None` it logs `"Coeffs empty!"` (first component `true`) — but does not
return: execution falls through to `float2frmt(None)`/`fixp(None)`, which
raises inside numpy (modelled as result `none`).  Any actual list (also
the empty one, which triggers no log at all) is quantized element-wise;
with `to_int` the quantized values are additionally multiplied by
`2 ** WF` (`1 << Q_coeff.WF`). -/
def quant_coeffs (q : CoeffQDict) (coeffs : Option (List ℚ)) (to_int : Bool) :
    Bool × Option (List ℚ) :=
  let errorLogged := coeffs.isNone
  match coeffs with
  | none => (errorLogged, none)
  | some cs =>
    if to_int then
      (errorLogged, some (cs.map (fun x => quantize q.cfg x * 2 ^ q.cfg.WF)))
    else
      (errorLogged, some (cs.map (fun x => quantize q.cfg x)))

/-- A concrete filter configuration used to instantiate the theorems
below: eight feed-forward taps (`b`), raw feed-forward coefficients with
`sum(abs(ba[0])) = 5`. -/
def st8 : FxqcState :=
  { QI := ⟨0, 15, 16⟩, QCB := ⟨2, 13, 16⟩, QCA := ⟨1, 14, 16⟩,
    QA := ⟨4, 3, 8⟩,
    b := [1, 1/2, -1/4, 3, -2, 1/8, 1, 1],
    a := [1, 1/2, 1/4], ba0 := [2, -2, 1], ba1 := [1, 1/4, 0] }

/-- A variant of `st8` that differs only in the feedback data: the `a`
coefficient lists, the `a`-coefficient word format `QCA`, and the prior
accumulator format. -/
def st8b : FxqcState :=
  { st8 with QCA := ⟨7, 0, 8⟩, QA := ⟨0, 0, 1⟩, a := [5, 6], ba1 := [9] }

/-- A concrete configuration whose tap lists are empty but whose stored
accumulator word format is valid. -/
def stEmpty : FxqcState :=
  { QI := ⟨0, 15, 16⟩, QCB := ⟨0, 15, 16⟩, QCA := ⟨0, 15, 16⟩,
    QA := ⟨4, 3, 8⟩, b := [], a := [], ba0 := [], ba1 := [] }

/-- A concrete coefficient quantization dict whose display format is
binary. -/
def qd1 : CoeffQDict := ⟨⟨2, 4, RoundMode.Round, OvflMode.Sat⟩, "bin"⟩

/-- The same numeric format as `qd1` with decimal display format. -/
def qd2 : CoeffQDict := ⟨⟨2, 4, RoundMode.Round, OvflMode.Sat⟩, "dec"⟩

/-- A concrete valid word format used as a prior widget state. -/
def wfS : WFmt := ⟨2, 15, 18⟩

/-- Another concrete valid word format used as a prior widget state. -/
def wfT : WFmt := ⟨0, 30, 31⟩

/-! ## Helper lemmas -/

lemma npCeilLog2_pos (x : ℚ) (hx : 0 < x) : npCeilLog2 x = some (ceilLog2 x) := by
  simp [npCeilLog2, not_le.mpr hx]

/-- `ceilLog2 x` is the least integer `n` with `x ≤ 2 ^ n`, i.e. exactly
`⌈log₂ x⌉`: the embedding of `int(np.ceil(np.log2 x))` is faithful on the
whole positive domain. -/
lemma ceilLog2_is_least (x : ℚ) (hx : 0 < x) :
    x ≤ (2:ℚ) ^ ceilLog2 x ∧ ∀ n : ℤ, x ≤ (2:ℚ) ^ n → ceilLog2 x ≤ n := by
  by_cases h1 : 1 ≤ x
  · have hceil_nonneg : (0:ℤ) ≤ ⌈x⌉ := Int.ceil_nonneg hx.le
    have hmcast : ((Int.toNat ⌈x⌉ : ℤ)) = ⌈x⌉ := Int.toNat_of_nonneg hceil_nonneg
    have hxle : x ≤ ((Int.toNat ⌈x⌉ : ℕ) : ℚ) := by
      have h := Int.le_ceil x
      rw [← hmcast] at h
      exact_mod_cast h
    constructor
    · rw [ceilLog2, if_pos h1, zpow_natCast]
      calc x ≤ ((Int.toNat ⌈x⌉ : ℕ) : ℚ) := hxle
        _ ≤ ((2 ^ Nat.clog 2 (Int.toNat ⌈x⌉) : ℕ) : ℚ) := by
              exact_mod_cast Nat.le_pow_clog (by norm_num) _
        _ = (2:ℚ) ^ Nat.clog 2 (Int.toNat ⌈x⌉) := by push_cast; ring
    · intro n hn
      rw [ceilLog2, if_pos h1]
      have hn0 : 0 ≤ n := by
        by_contra hneg
        push_neg at hneg
        have hle : (2:ℚ) ^ n ≤ (2:ℚ) ^ (-1:ℤ) := zpow_le_zpow_right₀ one_le_two (by omega)
        rw [show ((2:ℚ) ^ (-1:ℤ)) = 1 / 2 by norm_num] at hle
        linarith
      lift n to ℕ using hn0 with k
      rw [zpow_natCast] at hn
      have hck : ⌈x⌉ ≤ ((2:ℤ) ^ k) := Int.ceil_le.mpr (by exact_mod_cast hn)
      have hm2 : Int.toNat ⌈x⌉ ≤ 2 ^ k := by
        have h2k : ((2:ℤ)) ^ k = ((2 ^ k : ℕ) : ℤ) := by push_cast; ring
        omega
      exact_mod_cast (Nat.le_pow_iff_clog_le (by norm_num)).mp hm2
  · push_neg at h1
    have hinv1 : 1 < x⁻¹ := (one_lt_inv₀ hx).2 h1
    have hfl1 : (1:ℤ) ≤ ⌊x⁻¹⌋ := Int.le_floor.mpr (by exact_mod_cast hinv1.le)
    have htle : ((Int.toNat ⌊x⁻¹⌋ : ℕ) : ℚ) ≤ x⁻¹ := by
      have h := Int.floor_le x⁻¹
      have h2 : ((Int.toNat ⌊x⁻¹⌋ : ℤ) : ℚ) ≤ x⁻¹ := by
        rw [Int.toNat_of_nonneg (by omega)]; exact h
      exact_mod_cast h2
    constructor
    · rw [ceilLog2, if_neg (not_le.mpr h1), zpow_neg, zpow_natCast]
      have hpow : ((2:ℚ) ^ Nat.log 2 (Int.toNat ⌊x⁻¹⌋)) ≤ x⁻¹ := by
        calc ((2:ℚ) ^ Nat.log 2 (Int.toNat ⌊x⁻¹⌋))
            = ((2 ^ Nat.log 2 (Int.toNat ⌊x⁻¹⌋) : ℕ) : ℚ) := by push_cast; ring
          _ ≤ ((Int.toNat ⌊x⁻¹⌋ : ℕ) : ℚ) := by
              exact_mod_cast Nat.pow_log_le_self 2 (by omega)
          _ ≤ x⁻¹ := htle
      have h2pos : (0:ℚ) < 2 ^ Nat.log 2 (Int.toNat ⌊x⁻¹⌋) := by positivity
      calc x = (x⁻¹)⁻¹ := (inv_inv x).symm
        _ ≤ ((2:ℚ) ^ Nat.log 2 (Int.toNat ⌊x⁻¹⌋))⁻¹ := inv_anti₀ h2pos hpow
    · intro n hn
      rw [ceilLog2, if_neg (not_le.mpr h1)]
      rcases le_or_lt 0 n with hn0 | hn0
      · omega
      · have hkn : n = -((Int.toNat (-n) : ℕ) : ℤ) := by omega
        rw [hkn, zpow_neg, zpow_natCast] at hn
        have hinvk : ((2:ℚ) ^ (Int.toNat (-n))) ≤ x⁻¹ := by
          calc (2:ℚ) ^ (Int.toNat (-n))
              = (((2:ℚ) ^ (Int.toNat (-n)))⁻¹)⁻¹ := (inv_inv _).symm
            _ ≤ x⁻¹ := inv_anti₀ hx hn
        have hflk : ((2:ℤ) ^ (Int.toNat (-n))) ≤ ⌊x⁻¹⌋ :=
          Int.le_floor.mpr (by exact_mod_cast hinvk)
        have htk : 2 ^ (Int.toNat (-n)) ≤ Int.toNat ⌊x⁻¹⌋ := by
          have h2k : ((2:ℤ)) ^ (Int.toNat (-n)) = ((2 ^ (Int.toNat (-n)) : ℕ) : ℤ) := by
            push_cast; ring
          omega
        have hlog : Int.toNat (-n) ≤ Nat.log 2 (Int.toNat ⌊x⁻¹⌋) :=
          (Nat.pow_le_iff_le_log (by norm_num) (by omega)).mp htk
        omega

/-- Compute `ceilLog2` from a bracketing pair of powers of two. -/
lemma ceilLog2_eq_of (x : ℚ) (n : ℤ) (hx : 0 < x)
    (hup : x ≤ (2:ℚ) ^ n) (hlow : (2:ℚ) ^ (n - 1) < x) : ceilLog2 x = n := by
  refine le_antisymm ((ceilLog2_is_least x hx).2 n hup) ?_
  by_contra h
  push_neg at h
  have h1 : (2:ℚ) ^ (ceilLog2 x) ≤ (2:ℚ) ^ (n - 1) :=
    zpow_le_zpow_right₀ one_le_two (by omega)
  have h2 := (ceilLog2_is_least x hx).1
  linarith

lemma ceilLog2_eight : ceilLog2 (8:ℚ) = 3 := by
  apply ceilLog2_eq_of <;> norm_num

lemma ceilLog2_five : ceilLog2 (5:ℚ) = 3 := by
  apply ceilLog2_eq_of <;> norm_num

lemma roundTo_intCast (m : RoundMode) (k : ℤ) : roundTo m (k : ℚ) = k := by
  cases m with
  | Round =>
    rcases le_or_lt (0:ℚ) (k:ℚ) with h | h
    · rw [roundTo, if_pos h, show ((k:ℚ) + 1/2) = ((1:ℚ)/2 + k) by ring,
        Int.floor_add_int]
      norm_num
    · rw [roundTo, if_neg (not_le.mpr h),
        show ((k:ℚ) - 1/2) = (-(1/2:ℚ) + k) by ring, Int.ceil_add_int]
      norm_num
  | Fix =>
    rcases le_or_lt (0:ℚ) (k:ℚ) with h | h
    · rw [roundTo, if_pos h, Int.floor_intCast]
    · rw [roundTo, if_neg (not_le.mpr h), Int.ceil_intCast]
  | Floor => rw [roundTo, Int.floor_intCast]

lemma ovflTo_bounds (m : OvflMode) (n : ℕ) (k : ℤ) :
    -(2 ^ n) ≤ ovflTo m (n + 1) k ∧ ovflTo m (n + 1) k ≤ 2 ^ n - 1 := by
  have hpos : (0:ℤ) < 2 ^ n := by positivity
  cases m with
  | Wrap =>
    have h2 : (2:ℤ) ^ (n + 1) = 2 * 2 ^ n := by rw [pow_succ]; ring
    have h0 : (0:ℤ) ≤ (k + 2 ^ n) % 2 ^ (n + 1) := Int.emod_nonneg _ (by positivity)
    have h1 : (k + 2 ^ n) % 2 ^ (n + 1) < 2 ^ (n + 1) := Int.emod_lt_of_pos _ (by positivity)
    simp only [ovflTo, Nat.add_sub_cancel]
    omega
  | Sat =>
    simp only [ovflTo, Nat.add_sub_cancel]
    omega

lemma ovflTo_id (m : OvflMode) (n : ℕ) (k : ℤ)
    (h1 : -(2 ^ n) ≤ k) (h2 : k ≤ 2 ^ n - 1) : ovflTo m (n + 1) k = k := by
  cases m with
  | Wrap =>
    have h3 : (2:ℤ) ^ (n + 1) = 2 * 2 ^ n := by rw [pow_succ]; ring
    have h4 : (k + 2 ^ n) % 2 ^ (n + 1) = k + 2 ^ n :=
      Int.emod_eq_of_lt (by omega) (by omega)
    simp only [ovflTo, Nat.add_sub_cancel]
    omega
  | Sat =>
    simp only [ovflTo, Nat.add_sub_cancel]
    omega

lemma quantize_mul_pow (c : QConfig) (x : ℚ) :
    quantize c x * 2 ^ c.WF = (quantizeInt c x : ℚ) := by
  unfold quantize
  exact div_mul_cancel₀ _ (by positivity)

lemma quantizeInt_range (c : QConfig) (x : ℚ) :
    -(2 ^ (c.WI + c.WF)) ≤ quantizeInt c x ∧
    quantizeInt c x ≤ 2 ^ (c.WI + c.WF) - 1 :=
  ovflTo_bounds c.ovfl (c.WI + c.WF) _

lemma quantizeInt_quantize (c : QConfig) (x : ℚ) :
    quantizeInt c (quantize c x) = quantizeInt c x := by
  have h := quantizeInt_range c x
  show ovflTo c.ovfl c.W (roundTo c.rnd (quantize c x * 2 ^ c.WF)) = quantizeInt c x
  rw [quantize_mul_pow, roundTo_intCast]
  exact ovflTo_id c.ovfl (c.WI + c.WF) _ h.1 h.2

/-- Evaluation of `update_accu_settings` in `"full"` mode when the growth
computation succeeds. -/
lemma update_full_eval (st : FxqcState) (A : ℤ)
    (hA : npCeilLog2 ((st.b.length : ℚ)) = some A) :
    update_accu_settings "full" st
      = (false, { st with QA :=
          { WI := st.QI.WI + st.QCB.WI + A,
            WF := st.QI.WF + st.QCB.WF,
            W := st.QI.WI + st.QCB.WI + A + (st.QI.WF + st.QCB.WF) + 1 } }) := by
  simp [update_accu_settings, accu_growth, hA]

/-- Evaluation of `update_accu_settings` in `"auto"` mode when the growth
computation succeeds. -/
lemma update_auto_eval (st : FxqcState) (A : ℤ)
    (hA : npCeilLog2 (sumAbs st.ba0) = some A) :
    update_accu_settings "auto" st
      = (false, { st with QA :=
          { WI := st.QI.WI + st.QCB.WI + A,
            WF := st.QI.WF + st.QCB.WF,
            W := st.QI.WI + st.QCB.WI + A + (st.QI.WF + st.QCB.WF) + 1 } }) := by
  simp [update_accu_settings, accu_growth, hA]

/-! ## Claims -/

/-- Claim C1: for every non-empty feed-forward tap list `b`, accumulator
sizing in `"full"` mode succeeds and computes `WI_acc = WI_input +
WI_coeff + G` with growth `G = ceil(log2 N)` (`N` = number of `b` taps),
`WF_acc = WF_input + WF_coeff`, and `W_acc = WI_acc + WF_acc + 1`; for
`N = 8` the growth is `G = 3`. -/
theorem C1_full_sizing (st : FxqcState) (hb : st.b ≠ []) :
    (update_accu_settings "full" st).1 = false ∧
    (update_accu_settings "full" st).2.QA.WI
      = st.QI.WI + st.QCB.WI + ceilLog2 ((st.b.length : ℚ)) ∧
    (update_accu_settings "full" st).2.QA.WF = st.QI.WF + st.QCB.WF ∧
    (update_accu_settings "full" st).2.QA.W
      = (update_accu_settings "full" st).2.QA.WI
        + (update_accu_settings "full" st).2.QA.WF + 1 ∧
    (st.b.length = 8 → ceilLog2 ((st.b.length : ℚ)) = 3) := by
  have hlen : 0 < st.b.length := List.length_pos.mpr hb
  have hq : (0:ℚ) < (st.b.length : ℚ) := by exact_mod_cast hlen
  have he := update_full_eval st (ceilLog2 ((st.b.length : ℚ))) (npCeilLog2_pos _ hq)
  rw [he]
  refine ⟨rfl, rfl, rfl, by simp, ?_⟩
  intro h8
  rw [h8]
  norm_num [ceilLog2_eight]

/-- Witness for C1: the concrete eight-tap configuration `st8`. -/
theorem C1_full_sizing_witness :
    st8.b ≠ [] ∧
    ((update_accu_settings "full" st8).1 = false ∧
     (update_accu_settings "full" st8).2.QA.WI
       = st8.QI.WI + st8.QCB.WI + ceilLog2 ((st8.b.length : ℚ)) ∧
     (update_accu_settings "full" st8).2.QA.WF = st8.QI.WF + st8.QCB.WF ∧
     (update_accu_settings "full" st8).2.QA.W
       = (update_accu_settings "full" st8).2.QA.WI
         + (update_accu_settings "full" st8).2.QA.WF + 1 ∧
     (st8.b.length = 8 → ceilLog2 ((st8.b.length : ℚ)) = 3)) :=
  ⟨by simp [st8], C1_full_sizing st8 (by simp [st8])⟩

/-- Claim C2: for every coefficient set whose sum of absolute tap values
is positive, accumulator sizing in `"auto"` mode succeeds and computes
`WI_acc = WI_input + WI_coeff + G` with growth `G = ceil(log2(sum of
absolute taps))` and `WF_acc = WF_input + WF_coeff`; for a tap set with
sum of absolute values 5 the growth is `G = 3`. -/
theorem C2_auto_sizing (st : FxqcState) (h : 0 < sumAbs st.ba0) :
    (update_accu_settings "auto" st).1 = false ∧
    (update_accu_settings "auto" st).2.QA.WI
      = st.QI.WI + st.QCB.WI + ceilLog2 (sumAbs st.ba0) ∧
    (update_accu_settings "auto" st).2.QA.WF = st.QI.WF + st.QCB.WF ∧
    (sumAbs st.ba0 = 5 → ceilLog2 (sumAbs st.ba0) = 3) := by
  have he := update_auto_eval st (ceilLog2 (sumAbs st.ba0)) (npCeilLog2_pos _ h)
  rw [he]
  refine ⟨rfl, rfl, rfl, ?_⟩
  intro h5
  rw [h5]
  exact ceilLog2_five

/-- Witness for C2: the concrete configuration `st8`, whose raw
feed-forward taps `[2, -2, 1]` have absolute sum 5. -/
theorem C2_auto_sizing_witness :
    0 < sumAbs st8.ba0 ∧
    ((update_accu_settings "auto" st8).1 = false ∧
     (update_accu_settings "auto" st8).2.QA.WI
       = st8.QI.WI + st8.QCB.WI + ceilLog2 (sumAbs st8.ba0) ∧
     (update_accu_settings "auto" st8).2.QA.WF = st8.QI.WF + st8.QCB.WF ∧
     (sumAbs st8.ba0 = 5 → ceilLog2 (sumAbs st8.ba0) = 3)) :=
  ⟨by norm_num [sumAbs, st8], C2_auto_sizing st8 (by norm_num [sumAbs, st8])⟩

/-- Claim C3: requesting derived accumulator sizing (`"full"` or
`"auto"`) with an empty tap sequence, or with a coefficient set of zero
absolute sum, reports an error (the function returns instead of raising)
and leaves the whole state — in particular the previously stored
accumulator word format — unchanged. -/
theorem C3_sizing_error_retains (st : FxqcState) (cmbW : String)
    (h : (cmbW = "full" ∧ st.b = []) ∨ (cmbW = "auto" ∧ sumAbs st.ba0 = 0)) :
    update_accu_settings cmbW st = (true, st) := by
  rcases h with ⟨hc, hb⟩ | ⟨hc, hs⟩
  · subst hc
    simp [update_accu_settings, accu_growth, hb, npCeilLog2]
  · subst hc
    simp [update_accu_settings, accu_growth, hs, npCeilLog2]

/-- Witness for C3: empty tap list under `"full"` sizing; the prior
accumulator format of `stEmpty` survives unchanged. -/
theorem C3_sizing_error_retains_witness :
    (("full" = "full" ∧ stEmpty.b = []) ∨
     ("full" = "auto" ∧ sumAbs stEmpty.ba0 = 0)) ∧
    update_accu_settings "full" stEmpty = (true, stEmpty) :=
  ⟨Or.inl ⟨rfl, rfl⟩, C3_sizing_error_retains stEmpty "full" (Or.inl ⟨rfl, rfl⟩)⟩

/-- Claim C5: after any update operation — a widget edit (`ui2dict`), an
external update (`dict2ui`), or accumulator resizing
(`update_accu_settings`, in any mode; on a sizing error the prior state,
assumed valid, is kept) — the stored total width satisfies
`W = WI + WF + 1`. -/
theorem C5_W_recomputed (ledWI ledWF qWI qWF : Option ℤ) (s t : WFmt)
    (cmbW : String) (st : FxqcState) (hQA : st.QA.inv) :
    (ui2dict ledWI ledWF s).inv ∧ (dict2ui qWI qWF t).inv ∧
    (update_accu_settings cmbW st).2.QA.inv := by
  refine ⟨by simp [ui2dict, WFmt.inv], ?_, ?_⟩
  · simp only [dict2ui, WFmt.inv]
    omega
  · cases hA : accu_growth cmbW st with
    | none => simpa [update_accu_settings, hA] using hQA
    | some A => simp [update_accu_settings, hA, WFmt.inv]

/-- Witness for C5: concrete edits on `wfS`/`wfT` and a `"man"`-mode
resize of `st8`. -/
theorem C5_W_recomputed_witness :
    st8.QA.inv ∧
    ((ui2dict (some 3) (some 4) wfS).inv ∧ (dict2ui none (some 7) wfT).inv ∧
     (update_accu_settings "man" st8).2.QA.inv) :=
  ⟨by simp [st8, WFmt.inv],
   C5_W_recomputed (some 3) (some 4) none (some 7) wfS wfT "man" st8
     (by simp [st8, WFmt.inv])⟩

/-- Claim C7: a `WI` or `WF` entry accepted at the boundary (`ui2dict` on
field edits, `dict2ui` on dict updates) is always a non-negative integer,
provided the prior stored value (the rejection fallback) is non-negative:
invalid (`none`) or negative entries never produce a negative stored
word length. -/
theorem C7_boundary_nonneg (ledWI ledWF qWI qWF : Option ℤ) (s t : WFmt)
    (hs1 : 0 ≤ s.WI) (hs2 : 0 ≤ s.WF) (ht1 : 0 ≤ t.WI) (ht2 : 0 ≤ t.WF) :
    (0 ≤ (ui2dict ledWI ledWF s).WI ∧ 0 ≤ (ui2dict ledWI ledWF s).WF) ∧
    (0 ≤ (dict2ui qWI qWF t).WI ∧ 0 ≤ (dict2ui qWI qWF t).WF) := by
  have key : ∀ (e : Option ℤ) (f : ℤ), 0 ≤ f → 0 ≤ safe_eval_poszero e f := by
    intro e f hf
    cases e with
    | none => exact hf
    | some v =>
      by_cases hv : v < 0
      · simpa [safe_eval_poszero, hv] using hf
      · simp only [safe_eval_poszero, if_neg hv]
        omega
  refine ⟨⟨key _ _ hs1, key _ _ hs2⟩, ?_, ?_⟩
  · cases qWI with
    | none => simpa [dict2ui] using ht1
    | some v => simpa [dict2ui] using key (some v) _ ht1
  · cases qWF with
    | none => simpa [dict2ui] using ht2
    | some v => simpa [dict2ui] using key (some v) _ ht2

/-- Witness for C7: a negative entry and an invalid entry on `wfS`, a
negative and a positive dict value on `wfT`; every accepted value stays
non-negative. -/
theorem C7_boundary_nonneg_witness :
    (0 ≤ wfS.WI ∧ 0 ≤ wfS.WF ∧ 0 ≤ wfT.WI ∧ 0 ≤ wfT.WF) ∧
    ((0 ≤ (ui2dict (some (-5)) none wfS).WI ∧
      0 ≤ (ui2dict (some (-5)) none wfS).WF) ∧
     (0 ≤ (dict2ui (some (-7)) (some 3) wfT).WI ∧
      0 ≤ (dict2ui (some (-7)) (some 3) wfT).WF)) :=
  ⟨⟨by decide, by decide, by decide, by decide⟩,
   C7_boundary_nonneg (some (-5)) none (some (-7)) (some 3) wfS wfT
     (by decide) (by decide) (by decide) (by decide)⟩

/-- Claim C8: two successful derived sizings (`"full"` or `"auto"`) that
agree on the feed-forward coefficients (both the quantized list `b` and
the raw taps `ba[0]`), the input word format `QI` and the b-coefficient
word format `QCB` produce the same accumulator `WI`, `WF` and `W`; the
feedback (`a`) coefficients and the a-coefficient format `QCA` have no
influence. -/
theorem C8_feedback_no_influence (st1 st2 : FxqcState) (cmbW : String)
    (hmode : cmbW = "full" ∨ cmbW = "auto")
    (hb : st1.b = st2.b) (hba : st1.ba0 = st2.ba0)
    (hQI : st1.QI = st2.QI) (hQCB : st1.QCB = st2.QCB)
    (hok : (update_accu_settings cmbW st1).1 = false) :
    (update_accu_settings cmbW st1).2.QA.WI
      = (update_accu_settings cmbW st2).2.QA.WI ∧
    (update_accu_settings cmbW st1).2.QA.WF
      = (update_accu_settings cmbW st2).2.QA.WF ∧
    (update_accu_settings cmbW st1).2.QA.W
      = (update_accu_settings cmbW st2).2.QA.W := by
  rcases hmode with h | h
  · subst h
    cases hA : npCeilLog2 ((st1.b.length : ℚ)) with
    | none =>
      exfalso
      rw [show update_accu_settings "full" st1 = (true, st1) by
        simp [update_accu_settings, accu_growth, hA]] at hok
      simp at hok
    | some A =>
      rw [update_full_eval st1 A hA, update_full_eval st2 A (by rw [← hb]; exact hA)]
      refine ⟨?_, ?_, ?_⟩ <;> simp [hQI, hQCB]
  · subst h
    cases hA : npCeilLog2 (sumAbs st1.ba0) with
    | none =>
      exfalso
      rw [show update_accu_settings "auto" st1 = (true, st1) by
        simp [update_accu_settings, accu_growth, hA]] at hok
      simp at hok
    | some A =>
      rw [update_auto_eval st1 A hA, update_auto_eval st2 A (by rw [← hba]; exact hA)]
      refine ⟨?_, ?_, ?_⟩ <;> simp [hQI, hQCB]

/-- Witness for C8: `st8` and `st8b` differ in the feedback coefficient
lists, the a-coefficient format and the prior accumulator format, yet
`"full"` sizing yields the same accumulator word format. -/
theorem C8_feedback_no_influence_witness :
    (st8.b = st8b.b ∧ st8.ba0 = st8b.ba0 ∧ st8.QI = st8b.QI ∧
     st8.QCB = st8b.QCB ∧ (update_accu_settings "full" st8).1 = false) ∧
    ((update_accu_settings "full" st8).2.QA.WI
       = (update_accu_settings "full" st8b).2.QA.WI ∧
     (update_accu_settings "full" st8).2.QA.WF
       = (update_accu_settings "full" st8b).2.QA.WF ∧
     (update_accu_settings "full" st8).2.QA.W
       = (update_accu_settings "full" st8b).2.QA.W) :=
  ⟨⟨rfl, rfl, rfl, rfl,
    by norm_num [update_accu_settings, accu_growth, npCeilLog2, st8]⟩,
   C8_feedback_no_influence st8 st8b "full" (Or.inl rfl) rfl rfl rfl rfl
     (by norm_num [update_accu_settings, accu_growth, npCeilLog2, st8])⟩

/-- Claim C4 (evaluating the code at the failing inputs): `quant_coeffs`
does not abort on an empty or undefined tap sequence.  For `coeffs = []`
no error is reported at all and the quantization is performed, returning
`[]`; for `coeffs = None` the error is logged but execution still falls
through into the quantizer library with `None` (modelled as result
`none`, a raised exception) instead of aborting the operation cleanly. -/
theorem C4_quant_coeffs_not_aborted :
    (quant_coeffs ⟨⟨0, 15, RoundMode.Floor, OvflMode.Wrap⟩, "dec"⟩ (some []) false
       = (false, some [])) ∧
    (quant_coeffs ⟨⟨0, 15, RoundMode.Floor, OvflMode.Wrap⟩, "dec"⟩ none false
       = (true, none)) :=
  ⟨rfl, rfl⟩

/-- Claim C6: coefficient quantization depends only on the numeric format
of the quantization dict — the display-format setting is discarded
(`frmt` is forced to `"dec"`), so the result is the element-wise
fixed-binary-point quantization; and when integer output is requested the
result is each quantized value scaled by `2^WF`, which is exactly the
integer `quantizeInt` (so the truncation to an integer is exact). -/
theorem C6_quant_coeffs_decimal (q q' : CoeffQDict) (cs : List ℚ)
    (to_int : Bool) (hcfg : q.cfg = q'.cfg) :
    quant_coeffs q (some cs) to_int = quant_coeffs q' (some cs) to_int ∧
    (quant_coeffs q (some cs) false).2
      = some (cs.map (fun x => quantize q.cfg x)) ∧
    (quant_coeffs q (some cs) true).2
      = some (cs.map (fun x => ((quantizeInt q.cfg x : ℤ) : ℚ))) := by
  refine ⟨?_, rfl, ?_⟩
  · unfold quant_coeffs
    rw [hcfg]
  · have hmul : ∀ x : ℚ, quantize q.cfg x * 2 ^ q.cfg.WF
        = ((quantizeInt q.cfg x : ℤ) : ℚ) := quantize_mul_pow q.cfg
    simp [quant_coeffs, hmul]

/-- Witness for C6: the dicts `qd1` (binary display) and `qd2` (decimal
display) share the numeric format and quantize `[1/3, 7]` identically. -/
theorem C6_quant_coeffs_decimal_witness :
    qd1.cfg = qd2.cfg ∧
    (quant_coeffs qd1 (some [1/3, 7]) true = quant_coeffs qd2 (some [1/3, 7]) true ∧
     (quant_coeffs qd1 (some [1/3, 7]) false).2
       = some (([1/3, 7] : List ℚ).map (fun x => quantize qd1.cfg x)) ∧
     (quant_coeffs qd1 (some [1/3, 7]) true).2
       = some (([1/3, 7] : List ℚ).map (fun x => ((quantizeInt qd1.cfg x : ℤ) : ℚ)))) :=
  ⟨rfl, C6_quant_coeffs_decimal qd1 qd2 [1/3, 7] true rfl⟩

/-- Claim C9: quantization is idempotent — re-quantizing an
already-quantized value under the same config is a no-op, for every
rounding mode, overflow mode and word format. -/
theorem C9_quantize_idempotent (c : QConfig) (x : ℚ) :
    quantize c (quantize c x) = quantize c x := by
  show (quantizeInt c (quantize c x) : ℚ) / 2 ^ c.WF = quantize c x
  rw [quantizeInt_quantize]
  rfl

/-- Claim C10: a word-format widget constructed with the fractional
option disabled forces `WF = 0`, whatever `WF` value the settings supply,
so the stored total width is `W = WI + 1`. -/
theorem C10_fractional_disabled (wi wf : ℤ) :
    (construct_W wi wf false).WF = 0 ∧ (construct_W wi wf false).W = wi + 1 := by
  constructor <;> simp [construct_W]

end Pyfda
